import Mathlib

/-!
Verification of the libcyphal/libuavcan transport core against its specification.

Shallow embedding of:
* `TransportImpl::runMediaTransmit` / `sendTransfer` / `setLocalNodeId` /
  `make` / `make_media_array` / `ensureNewSessionFor`
  (src/include/libcyphal/transport/can/transport.hpp),
* `udp::detail::TransportImpl::make` (UDP transport implementation),
* `ResponsePromiseBase` (presentation-layer response promise),
* `uavcan::MultisetBase` (src/libuavcan/include/uavcan/util/multiset.hpp).

Machine integers of the C++ code are modelled as `Nat`/`Int`; the values in
play (node ids, port ids, counters) are small and never overflow their C++
types on the paths modelled here.  External collaborators (libcanard queue
primitives, media interfaces, the allocator) are modelled by their
documented contracts: a media `push` outcome is an oracle parameter and the
allocator outcome is a boolean parameter.
-/

namespace CanTx

/-- One item of a media TX queue: the fields of `CanardTxQueueItem` consumed
by `runMediaTransmit` (`tx_deadline_usec`, `frame.extended_can_id`,
`frame.payload`). The deadline is a microsecond time point. -/
structure TxItem where
  deadline : Int
  canId : Nat
  payload : List Nat
deriving DecidableEq, Repr

/-- Outcome of `IMedia::push` as seen by `runMediaTransmit`:
`Expected<bool, MediaError>` collapses to pushed / busy (`false`) / error. -/
inductive PushResult where
  | accepted
  | busy
  | mediaError
deriving DecidableEq, Repr

/-- Result of draining one media: the remaining TX queue and the ordered list
of frames for which `media.push` was invoked. -/
structure DrainOut where
  remaining : List TxItem
  pushedFrames : List TxItem
deriving DecidableEq, Repr

/-- Shallow embedding of the per-media `while (canardTxPeek …)` loop of
`TransportImpl::runMediaTransmit`.  `oracle k` is the outcome of the k-th
`media.push` call of this drain; `k` counts push attempts made so far.

* If `now < deadline` the frame is pushed: on busy the loop breaks without
  popping; on accepted or media error the item is popped (and freed) and the
  loop continues.
* Otherwise the item has expired: it is popped (and freed) without a push. -/
def drainMedia (now : Int) : List TxItem → (Nat → PushResult) → Nat → DrainOut
  | [], _, _ => ⟨[], []⟩
  | item :: rest, oracle, k =>
    if now < item.deadline then
      match oracle k with
      | .busy => ⟨item :: rest, [item]⟩
      | .accepted =>
        let out := drainMedia now rest oracle (k + 1)
        ⟨out.remaining, item :: out.pushedFrames⟩
      | .mediaError =>
        let out := drainMedia now rest oracle (k + 1)
        ⟨out.remaining, item :: out.pushedFrames⟩
    else
      drainMedia now rest oracle k

/-- `runMediaTransmit` drains each media of the media array independently,
in order; each media carries its own TX queue and its own push oracle. -/
def runMediaTransmit (now : Int) (medias : List (List TxItem × (Nat → PushResult))) :
    List DrainOut :=
  medias.map fun m => drainMedia now m.1 m.2 0

theorem drainMedia_pushed_not_expired (now : Int) (q : List TxItem)
    (oracle : Nat → PushResult) (k : Nat) :
    ∀ item ∈ (drainMedia now q oracle k).pushedFrames, now < item.deadline := by
  induction q generalizing k with
  | nil => simp [drainMedia]
  | cons hd tl ih =>
    intro item hmem
    by_cases hlt : now < hd.deadline
    · rcases horacle : oracle k with h | h | h <;>
        simp only [drainMedia, if_pos hlt, horacle, List.mem_cons,
          List.mem_singleton, List.not_mem_nil, or_false] at hmem
      · rcases hmem with rfl | hmem
        · exact hlt
        · exact ih (k + 1) item hmem
      · subst hmem
        exact hlt
      · rcases hmem with rfl | hmem
        · exact hlt
        · exact ih (k + 1) item hmem
    · simp only [drainMedia, if_neg hlt] at hmem
      exact ih k item hmem

/-- C1: during `run(now)`, an expired head frame (`now ≥ deadline`) is popped
and freed without being pushed — the drain continues on the rest of the queue
— and every frame actually handed to `media.push` satisfies
`now < deadline`. -/
theorem expired_frames_never_transmitted :
    (∀ (now : Int) (medias : List (List TxItem × (Nat → PushResult))),
      ∀ out ∈ runMediaTransmit now medias,
        ∀ item ∈ out.pushedFrames, now < item.deadline) ∧
    (∀ (now : Int) (item : TxItem) (rest : List TxItem)
        (oracle : Nat → PushResult) (k : Nat), now ≥ item.deadline →
      drainMedia now (item :: rest) oracle k = drainMedia now rest oracle k ∧
      ∀ j ∈ (drainMedia now (item :: rest) oracle k).pushedFrames,
        now < j.deadline) := by
  constructor
  · intro now medias out hout item hitem
    simp only [runMediaTransmit, List.mem_map] at hout
    obtain ⟨m, _, rfl⟩ := hout
    exact drainMedia_pushed_not_expired now m.1 m.2 0 item hitem
  · intro now item rest oracle k hexp
    have hnot : ¬ now < item.deadline := not_lt.mpr hexp
    refine ⟨by simp only [drainMedia, if_neg hnot], ?_⟩
    intro j hj
    exact drainMedia_pushed_not_expired now (item :: rest) oracle k j hj

/-- Closed witness for `expired_frames_never_transmitted`. -/
theorem expired_frames_never_transmitted_witness :
    drainMedia 10 [⟨5, 1, []⟩, ⟨20, 2, []⟩] (fun _ => .accepted) 0 =
      drainMedia 10 [⟨20, 2, []⟩] (fun _ => .accepted) 0 := by
  have h := expired_frames_never_transmitted.2 10 ⟨5, 1, []⟩ [⟨20, 2, []⟩]
    (fun _ => .accepted) 0 (by decide)
  exact h.1

/-- C2: if `media.push` reports busy for the (pushable) head frame, the drain
of that media stops with the queue unchanged — the same frame is at the head
again, exactly one push (of that frame) happened from this point on, so the
next `run` retries it — and each media of the array is drained independently
of all the others. -/
theorem busy_push_retries_same_frame :
    (∀ (now : Int) (item : TxItem) (rest : List TxItem)
        (oracle : Nat → PushResult) (k : Nat),
      now < item.deadline → oracle k = .busy →
      drainMedia now (item :: rest) oracle k = ⟨item :: rest, [item]⟩) ∧
    (∀ (now : Int) (medias : List (List TxItem × (Nat → PushResult))) (i : Nat),
      (runMediaTransmit now medias).get? i =
        (medias.get? i).map fun m => drainMedia now m.1 m.2 0) := by
  constructor
  · intro now item rest oracle k hlt hbusy
    simp only [drainMedia, if_pos hlt, hbusy]
  · intro now medias i
    simp [runMediaTransmit]

/-- Closed witness for `busy_push_retries_same_frame`. -/
theorem busy_push_retries_same_frame_witness :
    drainMedia 0 [⟨7, 3, [1]⟩] (fun _ => .busy) 0 = ⟨[⟨7, 3, [1]⟩], [⟨7, 3, [1]⟩]⟩ :=
  busy_push_retries_same_frame.1 0 ⟨7, 3, [1]⟩ [] (fun _ => .busy) 0
    (by decide) rfl

end CanTx

namespace CanSend

/-- Errors surfaced by `TransportImpl::sendTransfer`.  `fromCanard c` stands
for `TransportDelegate::anyErrorFromCanard(c)` applied to the negative
result code `c` of `canardTxPush`; the mapping itself lives in the delegate
header and is kept abstract as the tag of the failing code. -/
inductive SendErr where
  | memory
  | fromCanard (code : Int)
deriving DecidableEq, Repr

/-- The per-media loop of `sendTransfer`: for each media, `canardTxPush` is
invoked (its signed result is the list entry) and `maybe_error` is
overwritten on every negative result.  Returns the final `maybe_error`
together with the number of `canardTxPush` invocations. -/
def sendLoop : List Int → Option SendErr → Option SendErr × Nat
  | [], acc => (acc, 0)
  | r :: rs, acc =>
    let acc' := if r < 0 then some (SendErr.fromCanard r) else acc
    let out := sendLoop rs acc'
    (out.1, out.2 + 1)

/-- Shallow embedding of `TransportImpl::sendTransfer`.  `payloadOk` is false
exactly when coalescing the payload fragments into a contiguous buffer
failed (`payload.data() == nullptr && payload.size() > 0`), in which case
`MemoryError` is returned before any push.  `pushResults` holds, media by
media, the result code `canardTxPush` yields for that media's TX queue. -/
def sendTransfer (payloadOk : Bool) (pushResults : List Int) : Option SendErr × Nat :=
  if payloadOk then sendLoop pushResults none else (some .memory, 0)

/-- The last failing push of the loop wins, whatever the accumulator was. -/
theorem sendLoop_last_error (rs : List Int) (acc : Option SendErr) :
    (sendLoop rs acc).1 =
      match (rs.filter (fun r => r < 0)).getLast? with
      | some r => some (SendErr.fromCanard r)
      | none => acc := by
  induction rs generalizing acc with
  | nil => rfl
  | cons r rs ih =>
    by_cases hr : r < 0
    · simp only [sendLoop, if_pos hr, List.filter_cons, decide_eq_true_eq, hr,
        ite_true, List.getLast?_cons]
      rw [ih]
      cases hlast : (rs.filter (fun r => r < 0)).getLast? with
      | none => simp [List.getLastD, hlast]
      | some v => simp [List.getLastD, hlast]
    · simp only [sendLoop, if_neg hr, List.filter_cons, decide_eq_true_eq, hr,
        ite_false]
      exact ih acc

/-- Each media is pushed to exactly once. -/
theorem sendLoop_count (rs : List Int) (acc : Option SendErr) :
    (sendLoop rs acc).2 = rs.length := by
  induction rs generalizing acc with
  | nil => rfl
  | cons r rs ih => simp [sendLoop, ih]

/-- C3: when the payload coalesces successfully, `sendTransfer` calls
`canardTxPush` exactly once per configured media — failures on earlier media
never stop the iteration — and returns the error of the last media whose
push failed, or no error when every push succeeded. -/
theorem sendTransfer_all_media_last_error (pushResults : List Int) :
    (sendTransfer true pushResults).2 = pushResults.length ∧
    ((sendTransfer true pushResults).1 =
      ((pushResults.filter (fun r => r < 0)).getLast?).map SendErr.fromCanard) ∧
    ((∀ r ∈ pushResults, 0 ≤ r) → (sendTransfer true pushResults).1 = none) := by
  have hlast : (sendTransfer true pushResults).1 =
      ((pushResults.filter (fun r => r < 0)).getLast?).map SendErr.fromCanard := by
    have h := sendLoop_last_error pushResults none
    simp only [sendTransfer, if_pos] at h ⊢
    rw [h]
    cases (pushResults.filter (fun r => r < 0)).getLast? <;> rfl
  refine ⟨sendLoop_count pushResults none, hlast, ?_⟩
  intro hpos
  rw [hlast]
  have hfilter : pushResults.filter (fun r => r < 0) = [] := by
    rw [List.filter_eq_nil_iff]
    intro r hr
    simpa using not_lt.mpr (hpos r hr)
  rw [hfilter]
  rfl

/-- Closed witness for `sendTransfer_all_media_last_error`: three media of
which the first and second fail; the reported error is the second's. -/
theorem sendTransfer_all_media_last_error_witness :
    (sendTransfer true [-2, -3, 0]).2 = 3 ∧
    (sendTransfer true [-2, -3, 0]).1 = some (SendErr.fromCanard (-3)) ∧
    (sendTransfer true [4, 5]).1 = none := by
  have h1 := sendTransfer_all_media_last_error [-2, -3, 0]
  have h2 := sendTransfer_all_media_last_error [4, 5]
  refine ⟨h1.1, ?_, h2.2.2 ?_⟩
  · rw [h1.2.1]
    decide
  · decide

end CanSend

namespace CanNode

/-- `CANARD_NODE_ID_MAX` -/
def CANARD_NODE_ID_MAX : Nat := 127

/-- `CANARD_NODE_ID_UNSET` -/
def CANARD_NODE_ID_UNSET : Nat := 255

/-- The fields of `TransportImpl` (plus the canard instance's `node_id`)
read or written by `setLocalNodeId`. -/
structure NodeState where
  nodeId : Nat
  totalMessagePorts : Nat
  totalServicePorts : Nat
  shouldReconfigureFilters : Bool
deriving DecidableEq, Repr

/-- The (only) error `setLocalNodeId` can return. -/
inductive ArgErr where
  | argument
deriving DecidableEq, Repr

/-- Shallow embedding of `TransportImpl::setLocalNodeId`. -/
def setLocalNodeId (s : NodeState) (nodeId : Nat) : Option ArgErr × NodeState :=
  if nodeId > CANARD_NODE_ID_MAX then (some .argument, s)
  else if s.nodeId = nodeId then (none, s)
  else if s.nodeId ≠ CANARD_NODE_ID_UNSET then (some .argument, s)
  else
    let s1 := { s with nodeId := nodeId }
    if s1.totalServicePorts > 0 then
      (none, { s1 with shouldReconfigureFilters := true })
    else (none, s1)

/-- C5: `setLocalNodeId(id)` succeeds exactly when `id` is a valid node id
and the stored id is UNSET or already equal to `id`; every failing call
returns `ArgumentError` and leaves the whole state unchanged; and an
UNSET → identified transition with at least one service RX port present
raises the filters-dirty flag. -/
theorem setLocalNodeId_spec (s : NodeState) (nodeId : Nat) :
    ((setLocalNodeId s nodeId).1 = none ↔
      nodeId ≤ CANARD_NODE_ID_MAX ∧
        (s.nodeId = CANARD_NODE_ID_UNSET ∨ s.nodeId = nodeId)) ∧
    ((setLocalNodeId s nodeId).1 ≠ none → (setLocalNodeId s nodeId).2 = s) ∧
    (nodeId ≤ CANARD_NODE_ID_MAX → s.nodeId = CANARD_NODE_ID_UNSET →
      0 < s.totalServicePorts →
      (setLocalNodeId s nodeId).2.shouldReconfigureFilters = true ∧
      (setLocalNodeId s nodeId).2.nodeId = nodeId) := by
  unfold setLocalNodeId CANARD_NODE_ID_MAX CANARD_NODE_ID_UNSET
  refine ⟨?_, ?_, ?_⟩
  · constructor
    · intro hnone
      by_cases h1 : nodeId > 127
      · simp [h1] at hnone
      · refine ⟨Nat.le_of_not_lt h1, ?_⟩
        by_cases h2 : s.nodeId = nodeId
        · exact Or.inr h2
        · by_cases h3 : s.nodeId ≠ 255
          · simp [h1, h2, h3] at hnone
          · exact Or.inl (Classical.not_not.mp h3)
    · rintro ⟨hle, hcase⟩
      have h1 : ¬ nodeId > 127 := Nat.not_lt.mpr hle
      rcases hcase with hunset | heq
      · by_cases h2 : s.nodeId = nodeId
        · simp [h1, h2]
        · have h255 : ¬ (255 = nodeId) := by omega
          simp only [if_neg h1, if_neg h2, hunset, ne_eq, Classical.not_not,
            if_false]
          by_cases h4 : s.totalServicePorts > 0 <;> simp [h4, h255]
      · simp [h1, heq]
  · intro hne
    by_cases h1 : nodeId > 127
    · simp [h1]
    · by_cases h2 : s.nodeId = nodeId
      · simp [h1, h2] at hne
      · by_cases h3 : s.nodeId ≠ 255
        · simp [h1, h2, h3]
        · exfalso
          apply hne
          simp only [if_neg h1, if_neg h2, if_neg (Classical.not_not.mpr
            (Classical.not_not.mp h3))]
          by_cases h4 : s.totalServicePorts > 0 <;> simp [h4]
  · intro hle hunset hsvc
    have h1 : ¬ nodeId > 127 := Nat.not_lt.mpr hle
    have h2 : s.nodeId ≠ nodeId := by
      intro h
      rw [hunset] at h
      omega
    have h255 : ¬ (255 = nodeId) := by omega
    simp [h1, h2, hunset, hsvc, h255]

/-- Closed witness for `setLocalNodeId_spec`: setting id 69 on an anonymous
node with one service port succeeds and raises the filters-dirty flag. -/
theorem setLocalNodeId_spec_witness :
    (setLocalNodeId ⟨255, 0, 1, false⟩ 69).1 = none ∧
    (setLocalNodeId ⟨255, 0, 1, false⟩ 69).2.shouldReconfigureFilters = true := by
  have h := setLocalNodeId_spec ⟨255, 0, 1, false⟩ 69
  refine ⟨h.1.mpr ⟨by decide, Or.inl rfl⟩, (h.2.2 (by decide) rfl (by decide)).1⟩

end CanNode

namespace Factory

/-- `UDPARD_NETWORK_INTERFACE_COUNT_MAX` -/
def UDPARD_NETWORK_INTERFACE_COUNT_MAX : Nat := 3

/-- The media span handed to the factories: entries may be null
(`IMedia*` pointers), hence `Option`. -/
abbrev MediaSpan (α : Type) := List (Option α)

/-- The `std::count_if(media.begin(), media.end(), ptr ≠ nullptr)` step of
both factories. -/
def mediaCount {α : Type} (media : MediaSpan α) : Nat :=
  media.countP fun m => m.isSome

/-- The fill loop shared by `TransportImpl::make_media_array` (CAN) and
`TransportImpl::makeMediaArray` (UDP): null entries are skipped and each
emplaced media gets the next index, starting from `i`. -/
def fillMediaArray {α : Type} : MediaSpan α → Nat → List (Nat × α)
  | [], _ => []
  | none :: rest, i => fillMediaArray rest i
  | some m :: rest, i => (i, m) :: fillMediaArray rest (i + 1)

/-- `make_media_array`: when reserving capacity for the array fails
(out of memory, `allocOk = false`) the fill loop is skipped and the array
stays empty, so its size falls short of `media_count`. -/
def make_media_array {α : Type} (allocOk : Bool) (media : MediaSpan α) :
    List (Nat × α) :=
  if allocOk then fillMediaArray media 0 else []

/-- Result of a transport factory: `Expected<UniquePtr<…>, FactoryError>`,
with the produced transport abstracted to the media array it owns. -/
inductive MakeResult (α : Type) where
  | argumentError
  | memoryError
  | ok (mediaArray : List (Nat × α))
deriving DecidableEq, Repr

/-- The node-id validation of the CAN factory:
`local_node_id.has_value() && (local_node_id.value() > CANARD_NODE_ID_MAX)`. -/
def nodeIdBad (localNodeId : Option Nat) : Bool :=
  match localNodeId with
  | some n => decide (CanNode.CANARD_NODE_ID_MAX < n)
  | none => false

/-- Shallow embedding of `can::detail::TransportImpl::make`.  The two
allocation outcomes (media-array reservation and the transport instance
itself) are boolean parameters. -/
def canMake {α : Type} (media : MediaSpan α) (localNodeId : Option Nat)
    (arrayAllocOk transportAllocOk : Bool) : MakeResult α :=
  let count := mediaCount media
  if count = 0 ∨ 255 < count then .argumentError
  else if nodeIdBad localNodeId then .argumentError
  else
    let arr := make_media_array arrayAllocOk media
    if arr.length ≠ count then .memoryError
    else if transportAllocOk then .ok arr
    else .memoryError

/-- Shallow embedding of `udp::detail::TransportImpl::make` (the implemented
UDP factory).  It takes no node id: the UDP transport starts UNSET and gets
its id via `setLocalNodeId`. -/
def udpMake {α : Type} (media : MediaSpan α)
    (arrayAllocOk transportAllocOk : Bool) : MakeResult α :=
  let count := mediaCount media
  if count = 0 ∨ UDPARD_NETWORK_INTERFACE_COUNT_MAX < count then .argumentError
  else
    let arr := make_media_array arrayAllocOk media
    if arr.length ≠ count then .memoryError
    else if transportAllocOk then .ok arr
    else .memoryError

theorem fillMediaArray_eq_enumFrom {α : Type} (media : MediaSpan α) (i : Nat) :
    fillMediaArray media i = (media.filterMap id).enumFrom i := by
  induction media generalizing i with
  | nil => rfl
  | cons hd tl ih =>
    cases hd with
    | none => simp [fillMediaArray, List.filterMap_cons, ih]
    | some m => simp [fillMediaArray, List.filterMap_cons, List.enumFrom, ih]

theorem fillMediaArray_length {α : Type} (media : MediaSpan α) :
    (fillMediaArray media 0).length = mediaCount media := by
  rw [fillMediaArray_eq_enumFrom, List.enumFrom_length]
  induction media with
  | nil => rfl
  | cons hd tl ih =>
    cases hd <;> simp [List.filterMap_cons, mediaCount, List.countP_cons] at * <;>
      omega

/-- C8: each factory rejects with `ArgumentError` exactly when the number of
non-null media is zero or above its maximum (255 for CAN, 3 for UDP), or —
for CAN — when the supplied node id is out of range; with valid arguments it
produces a transport when both allocations succeed and `MemoryError` when
either fails. -/
theorem factory_argument_validation {α : Type} :
    (∀ (media : MediaSpan α) (localNodeId : Option Nat) (a t : Bool),
      canMake media localNodeId a t = .argumentError ↔
        (mediaCount media = 0 ∨ 255 < mediaCount media ∨
          ∃ n, localNodeId = some n ∧ CanNode.CANARD_NODE_ID_MAX < n)) ∧
    (∀ (media : MediaSpan α) (a t : Bool),
      udpMake media a t = .argumentError ↔
        (mediaCount media = 0 ∨ 3 < mediaCount media)) ∧
    (∀ (media : MediaSpan α) (localNodeId : Option Nat),
      0 < mediaCount media → mediaCount media ≤ 255 → nodeIdBad localNodeId = false →
        canMake media localNodeId true true = .ok (fillMediaArray media 0) ∧
        canMake media localNodeId false true = .memoryError ∧
        canMake media localNodeId true false = .memoryError) ∧
    (∀ media : MediaSpan α,
      0 < mediaCount media → mediaCount media ≤ 3 →
        udpMake media true true = .ok (fillMediaArray media 0) ∧
        udpMake media false true = .memoryError ∧
        udpMake media true false = .memoryError) := by
  refine ⟨?_, ?_, ?_, ?_⟩
  · intro media localNodeId a t
    unfold canMake
    by_cases h1 : mediaCount media = 0 ∨ 255 < mediaCount media
    · simp only [if_pos h1]
      constructor
      · intro _
        rcases h1 with h | h
        · exact Or.inl h
        · exact Or.inr (Or.inl h)
      · intro _
        trivial
    · simp only [if_neg h1]
      by_cases h2 : nodeIdBad localNodeId
      · simp only [if_pos h2]
        constructor
        · intro _
          refine Or.inr (Or.inr ?_)
          cases localNodeId with
          | none => simp [nodeIdBad] at h2
          | some n =>
            refine ⟨n, rfl, ?_⟩
            simpa [nodeIdBad] using h2
        · intro _
          trivial
      · simp only [if_neg h2]
        constructor
        · intro h
          by_cases h3 : (make_media_array a media).length ≠ mediaCount media
          · simp [h3] at h
          · by_cases h4 : t = true <;> simp [h3, h4] at h
        · intro h
          rcases h with h | h | ⟨n, rfl, hn⟩
          · exact absurd (Or.inl h) h1
          · exact absurd (Or.inr h) h1
          · exact absurd (by simpa [nodeIdBad] using hn) h2
  · intro media a t
    unfold udpMake UDPARD_NETWORK_INTERFACE_COUNT_MAX
    by_cases h1 : mediaCount media = 0 ∨ 3 < mediaCount media
    · simp only [if_pos h1]
      exact ⟨fun _ => h1, fun _ => trivial⟩
    · simp only [if_neg h1]
      constructor
      · intro h
        by_cases h3 : (make_media_array a media).length ≠ mediaCount media
        · simp [h3] at h
        · by_cases h4 : t = true <;> simp [h3, h4] at h
      · intro h
        exact absurd h h1
  · intro media localNodeId hlo hhi hnode
    have h1 : ¬ (mediaCount media = 0 ∨ 255 < mediaCount media) := by omega
    have hlen : (make_media_array true media).length = mediaCount media := by
      simpa [make_media_array] using fillMediaArray_length media
    have hlen0 : (make_media_array (α := α) false media).length = 0 := rfl
    refine ⟨?_, ?_, ?_⟩
    · simp [canMake, h1, hnode, hlen, make_media_array, fillMediaArray_length]
    · simp only [canMake, if_neg h1, hnode, Bool.false_eq_true, if_false,
        hlen0, ne_eq]
      have : ¬ (0 = mediaCount media) := by omega
      simp [this]
    · simp [canMake, h1, hnode, hlen]
  · intro media hlo hhi
    have h1 : ¬ (mediaCount media = 0 ∨
        UDPARD_NETWORK_INTERFACE_COUNT_MAX < mediaCount media) := by
      unfold UDPARD_NETWORK_INTERFACE_COUNT_MAX
      omega
    have hlen : (make_media_array true media).length = mediaCount media := by
      simpa [make_media_array] using fillMediaArray_length media
    have hlen0 : (make_media_array (α := α) false media).length = 0 := rfl
    refine ⟨?_, ?_, ?_⟩
    · simp [udpMake, h1, hlen, make_media_array, fillMediaArray_length]
    · simp only [udpMake, if_neg h1, hlen0, ne_eq]
      have : ¬ (0 = mediaCount media) := by omega
      simp [this]
    · simp [udpMake, h1, hlen]

/-- Closed witness for `factory_argument_validation`. -/
theorem factory_argument_validation_witness :
    canMake (α := Nat) [some 7] (some 200) true true = .argumentError ∧
    udpMake (α := Nat) [some 1, some 2, some 3, some 4] true true = .argumentError ∧
    canMake (α := Nat) [some 7] (some 10) true true = .ok [(0, 7)] ∧
    udpMake (α := Nat) [some 9] false true = .memoryError := by
  refine ⟨?_, ?_, ?_, ?_⟩
  · exact (factory_argument_validation.1 [some 7] (some 200) true true).mpr
      (Or.inr (Or.inr ⟨200, rfl, by decide⟩))
  · exact (factory_argument_validation.2.1 [some 1, some 2, some 3, some 4]
      true true).mpr (Or.inr (by decide))
  · exact ((factory_argument_validation.2.2.1 [some 7] (some 10)
      (by decide) (by decide) (by decide)).1).trans (by decide)
  · exact (factory_argument_validation.2.2.2 [some 9] (by decide) (by decide)).2.1

/-- C10: null entries of the media span are skipped both by the counting
step and by the array-building step: the media array holds exactly the
non-null interfaces, in their original relative order, with indices assigned
consecutively from zero (`List.enum`), and a valid mixed span yields a
transport built over exactly that array. -/
theorem factory_tolerates_null_media {α : Type} :
    (∀ media : MediaSpan α, mediaCount media = (media.filterMap id).length) ∧
    (∀ media : MediaSpan α, make_media_array true media = (media.filterMap id).enum) ∧
    (∀ (media : MediaSpan α) (localNodeId : Option Nat),
      0 < mediaCount media → mediaCount media ≤ 255 → nodeIdBad localNodeId = false →
      canMake media localNodeId true true = .ok ((media.filterMap id).enum)) := by
  have hcount : ∀ media : MediaSpan α, mediaCount media = (media.filterMap id).length := by
    intro media
    induction media with
    | nil => rfl
    | cons hd tl ih =>
      cases hd <;> simp [mediaCount, List.countP_cons, List.filterMap_cons] at * <;>
        omega
  have harr : ∀ media : MediaSpan α,
      make_media_array true media = (media.filterMap id).enum := by
    intro media
    simp [make_media_array, fillMediaArray_eq_enumFrom, List.enum]
  refine ⟨hcount, harr, ?_⟩
  intro media localNodeId hlo hhi hnode
  have h1 : ¬ (mediaCount media = 0 ∨ 255 < mediaCount media) := by omega
  have hlen : (make_media_array true media).length = mediaCount media := by
    simpa [make_media_array] using fillMediaArray_length media
  simp only [canMake, if_neg h1, hnode, Bool.false_eq_true, if_false, hlen,
    ne_eq, Classical.not_not]
  simp only [make_media_array, if_pos]
  rw [fillMediaArray_eq_enumFrom, ← List.enum]
  simp

/-- Closed witness for `factory_tolerates_null_media`: a span mixing null
and non-null entries yields a transport over the non-null interfaces with
consecutive indices from zero. -/
theorem factory_tolerates_null_media_witness :
    canMake (α := Nat) [none, some 10, none, some 20] none true true =
      .ok [(0, 10), (1, 20)] := by
  have h := factory_tolerates_null_media.2.2 [none, some 10, none, some 20]
    none (by decide) (by decide) (by decide)
  exact h.trans (by decide)

end Factory

namespace Subs

/-- `CanardTransferKind`: the closed set of transfer kinds. -/
inductive TKind where
  | message
  | request
  | response
deriving DecidableEq, Repr

/-- `CANARD_SUBJECT_ID_MAX` -/
def CANARD_SUBJECT_ID_MAX : Nat := 8191

/-- `CANARD_SERVICE_ID_MAX` -/
def CANARD_SERVICE_ID_MAX : Nat := 511

/-- Errors a session factory method can produce. -/
inductive SessionErr where
  | alreadyExists
  | argument
  | memory
deriving DecidableEq, Repr

/-- The canard RX subscription trees of the transport, flattened to the list
of (kind, port) keys in subscription order: `canardRxSubscribe` inserts a
key, `canardRxUnsubscribe` removes it. -/
structure SubState where
  subs : List (TKind × Nat)
deriving DecidableEq, Repr

/-- `ensureNewSessionFor`: probe the subscription tree via
`canardRxGetSubscription`; an existing entry yields `AlreadyExists`. -/
def ensureNewSessionFor (s : SubState) (k : TKind) (p : Nat) : Option SessionErr :=
  if (k, p) ∈ s.subs then some .alreadyExists else none

/-- Common shape of `make{Message,Request,Response}RxSession`: probe via
`ensureNewSessionFor`, then the session `make` validates the port id against
`maxId`, tries to allocate the session (`allocOk`), and on success the
session constructor subscribes (appending the key to the tree).
The two service variants are `SvcRxSession::make`; the message variant is
modelled from the spec by symmetry (msg_rx_session.hpp is not among the
sources): on creation the session registers itself into the tree. -/
def makeRxSessionGen (k : TKind) (maxId : Nat) (s : SubState) (p : Nat)
    (allocOk : Bool) : Option SessionErr × SubState :=
  match ensureNewSessionFor s k p with
  | some e => (some e, s)
  | none =>
    if maxId < p then (some .argument, s)
    else if allocOk then (none, ⟨s.subs ++ [(k, p)]⟩)
    else (some .memory, s)

/-- `TransportImpl::makeMessageRxSession` -/
def makeMessageRxSession : SubState → Nat → Bool → Option SessionErr × SubState :=
  makeRxSessionGen .message CANARD_SUBJECT_ID_MAX

/-- `TransportImpl::makeRequestRxSession` -/
def makeRequestRxSession : SubState → Nat → Bool → Option SessionErr × SubState :=
  makeRxSessionGen .request CANARD_SERVICE_ID_MAX

/-- `TransportImpl::makeResponseRxSession` -/
def makeResponseRxSession : SubState → Nat → Bool → Option SessionErr × SubState :=
  makeRxSessionGen .response CANARD_SERVICE_ID_MAX

/-- Destroying an RX session: its destructor calls `canardRxUnsubscribe`,
removing the (kind, port) key from the tree. -/
def destroyRxSession (s : SubState) (k : TKind) (p : Nat) : SubState :=
  ⟨s.subs.eraseP fun kp => kp = (k, p)⟩

/-- Transport states reachable from a freshly made transport (no
subscriptions) through the session factory methods and session
destructions. -/
inductive Reachable : SubState → Prop where
  | init : Reachable ⟨[]⟩
  | makeMsg {s : SubState} (p : Nat) (a : Bool) :
      Reachable s → Reachable (makeMessageRxSession s p a).2
  | makeReq {s : SubState} (p : Nat) (a : Bool) :
      Reachable s → Reachable (makeRequestRxSession s p a).2
  | makeResp {s : SubState} (p : Nat) (a : Bool) :
      Reachable s → Reachable (makeResponseRxSession s p a).2
  | destroy {s : SubState} (k : TKind) (p : Nat) :
      Reachable s → Reachable (destroyRxSession s k p)

theorem makeRxSessionGen_nodup (k : TKind) (maxId : Nat) (s : SubState)
    (p : Nat) (a : Bool) (h : s.subs.Nodup) :
    ((makeRxSessionGen k maxId s p a).2).subs.Nodup := by
  unfold makeRxSessionGen ensureNewSessionFor
  by_cases hmem : (k, p) ∈ s.subs
  · simp [hmem, h]
  · by_cases hmax : maxId < p
    · simp [hmem, hmax, h]
    · by_cases ha : a = true
      · simp only [hmem, if_neg, if_pos, hmax, ha, if_true, if_false]
        simp [List.nodup_append, h, hmem]
      · simp [hmem, hmax, ha, h]

theorem makeRxSessionGen_duplicate (k : TKind) (maxId : Nat) (s : SubState)
    (p : Nat) (a : Bool) (h : (k, p) ∈ s.subs) :
    makeRxSessionGen k maxId s p a = (some .alreadyExists, s) := by
  simp [makeRxSessionGen, ensureNewSessionFor, h]

/-- C4: on every reachable transport state the subscription keys are
pairwise distinct — at most one RX subscription per (kind, port) — and each
of the three RX session factory methods, invoked while the same (kind, port)
is already subscribed, returns `AlreadyExists` and leaves the subscription
state untouched (no second subscription, no session). -/
theorem rx_subscription_uniqueness :
    (∀ s : SubState, Reachable s → s.subs.Nodup) ∧
    (∀ (s : SubState) (p : Nat) (a : Bool),
      ((.message, p) ∈ s.subs →
        makeMessageRxSession s p a = (some .alreadyExists, s)) ∧
      ((.request, p) ∈ s.subs →
        makeRequestRxSession s p a = (some .alreadyExists, s)) ∧
      ((.response, p) ∈ s.subs →
        makeResponseRxSession s p a = (some .alreadyExists, s))) := by
  constructor
  · intro s hreach
    induction hreach with
    | init => exact List.nodup_nil
    | makeMsg p a _ ih => exact makeRxSessionGen_nodup _ _ _ p a ih
    | makeReq p a _ ih => exact makeRxSessionGen_nodup _ _ _ p a ih
    | makeResp p a _ ih => exact makeRxSessionGen_nodup _ _ _ p a ih
    | destroy k p _ ih =>
      exact ((List.eraseP_sublist _).nodup ih : _)
  · intro s p a
    exact ⟨makeRxSessionGen_duplicate _ _ s p a,
      makeRxSessionGen_duplicate _ _ s p a,
      makeRxSessionGen_duplicate _ _ s p a⟩

/-- Closed witness for `rx_subscription_uniqueness`: after subscribing
message port 111, the state is reachable and nodup, and a second
`makeMessageRxSession(111)` yields `AlreadyExists` without a state change. -/
theorem rx_subscription_uniqueness_witness :
    ((makeMessageRxSession ⟨[]⟩ 111 true).2).subs.Nodup ∧
    makeMessageRxSession (makeMessageRxSession ⟨[]⟩ 111 true).2 111 true =
      (some .alreadyExists, (makeMessageRxSession ⟨[]⟩ 111 true).2) := by
  refine ⟨rx_subscription_uniqueness.1 _ (Reachable.makeMsg 111 true .init), ?_⟩
  exact (rx_subscription_uniqueness.2 (makeMessageRxSession ⟨[]⟩ 111 true).2
    111 true).1 (by decide)

end Subs

namespace Promise

/-- A promise result value (`Expected<Success, Failure>`), abstract. -/
abbrev PResult := Nat

/-- Identity of a callback function object, abstract. -/
abbrev CbId := Nat

/-- The state of one `ResponsePromiseBase` held by part_001:
`callback_fn_` and `opt_result_`, plus whether its `CallbackNode` is still
registered in the shared client's transfer-id/timeout indices. -/
structure PState where
  registered : Bool
  callback : Option CbId
  result : Option PResult
deriving DecidableEq, Repr

/-- Operations on a promise: `resolve` is the shared client delivering a
response or a timeout; the rest are the public methods `fetchResult`,
`getResult` and `setCallback`. -/
inductive POp where
  | resolve (r : PResult)
  | fetch
  | get
  | setCb (c : Option CbId)
deriving DecidableEq, Repr

/-- Observable events: a resolution by the client, a non-empty fetch, a
non-empty get (borrow), and a callback invocation. -/
inductive POut where
  | resolved (r : PResult)
  | fetched (r : PResult)
  | got (r : PResult)
  | invoked (c : CbId) (r : PResult)
deriving DecidableEq, Repr

/-- `ResponsePromiseBase::acceptResult`: if a callback function is stored it
is moved out (slot cleared) and invoked with the result, which is then not
stored; otherwise the result is put in the one-slot buffer. -/
def acceptResult (s : PState) (r : PResult) : PState × List POut :=
  match s.callback with
  | some c => ({ s with callback := none }, [.invoked c r])
  | none => ({ s with result := some r }, [])

/-- One step of the promise lifecycle.

* `resolve r` — modelled from the spec: client_impl.hpp (`SharedClient`) is
  not among the sources; per the spec, response delivery and timeout look
  the callback node up in the indices (so they act only on a registered
  node), remove it from both indices, and hand the result to
  `acceptResult`.
* `fetch` — `fetchResult()`: move the stored result out (consuming).
* `get` — `getResult()`: peek without consuming.
* `setCb` — `setCallback`/`acceptNewCallback`: a non-null function finding a
  stored result fetches it and fires immediately, without touching the
  stored-callback slot; otherwise the slot is assigned. -/
def pstep (s : PState) : POp → PState × List POut
  | .resolve r =>
    if s.registered then
      let out := acceptResult { s with registered := false } r
      (out.1, .resolved r :: out.2)
    else (s, [])
  | .fetch =>
    match s.result with
    | some r => ({ s with result := none }, [.fetched r])
    | none => (s, [])
  | .get =>
    match s.result with
    | some r => (s, [.got r])
    | none => (s, [])
  | .setCb oc =>
    match oc with
    | some c =>
      match s.result with
      | some r => ({ s with result := none }, [.invoked c r])
      | none => ({ s with callback := some c }, [])
    | none => ({ s with callback := none }, [])

/-- Run a sequence of operations, accumulating the emitted events. -/
def prun (s : PState) : List POp → PState × List POut
  | [] => (s, [])
  | op :: ops =>
    let st := pstep s op
    let rest := prun st.1 ops
    (rest.1, st.2 ++ rest.2)

/-- A freshly constructed promise: registered in the client's indices, no
callback, no result. -/
def initPromise : PState := ⟨true, none, none⟩

def countFetched (outs : List POut) : Nat :=
  outs.countP fun o => match o with | .fetched _ => true | _ => false

def countInvoked (outs : List POut) : Nat :=
  outs.countP fun o => match o with | .invoked _ _ => true | _ => false

def countResolved (outs : List POut) : Nat :=
  outs.countP fun o => match o with | .resolved _ => true | _ => false

/-- Reachability invariant of a promise: while still registered no result is
stored, and a stored result excludes a stored callback. -/
def PInv (s : PState) : Prop :=
  (s.registered = true → s.result = none) ∧
  (s.result.isSome = true → s.callback = none)

/-- Number of deliveries the promise can still absorb. -/
def avail (s : PState) : Nat :=
  (if s.registered then 1 else 0) + (if s.result.isSome then 1 else 0)

/-- Number of resolutions the promise can still absorb. -/
def availR (s : PState) : Nat :=
  if s.registered then 1 else 0

theorem pstep_inv (s : PState) (op : POp) (h : PInv s) : PInv (pstep s op).1 := by
  obtain ⟨h1, h2⟩ := h
  cases op with
  | resolve r =>
    by_cases hreg : s.registered = true
    · cases hcb : s.callback with
      | some c =>
        simp only [pstep, if_pos hreg, acceptResult, hcb]
        exact ⟨fun h => by simp at h, fun _ => rfl⟩
      | none =>
        simp only [pstep, if_pos hreg, acceptResult, hcb]
        exact ⟨fun h => by simp at h, fun _ => rfl⟩
    · simp only [pstep, if_neg hreg]
      exact ⟨h1, h2⟩
  | fetch =>
    cases hres : s.result with
    | some r =>
      simp only [pstep, hres]
      exact ⟨fun _ => rfl, fun h => by simp at h⟩
    | none =>
      simp only [pstep, hres]
      exact ⟨h1, h2⟩
  | get =>
    cases hres : s.result with
    | some r =>
      simp only [pstep, hres]
      exact ⟨h1, h2⟩
    | none =>
      simp only [pstep, hres]
      exact ⟨h1, h2⟩
  | setCb oc =>
    cases oc with
    | some c =>
      cases hres : s.result with
      | some r =>
        simp only [pstep, hres]
        exact ⟨fun _ => rfl, fun h => by simp at h⟩
      | none =>
        simp only [pstep, hres]
        exact ⟨fun _ => rfl, fun hr => by simp at hr⟩
    | none =>
      simp only [pstep]
      exact ⟨h1, fun _ => rfl⟩

theorem prun_inv (s : PState) (ops : List POp) (h : PInv s) :
    PInv (prun s ops).1 := by
  induction ops generalizing s with
  | nil => exact h
  | cons op ops ih => exact ih (pstep s op).1 (pstep_inv s op h)

theorem pstep_delivery_bound (s : PState) (op : POp) (h : PInv s) :
    countFetched (pstep s op).2 + countInvoked (pstep s op).2 +
      avail (pstep s op).1 ≤ avail s := by
  obtain ⟨h1, h2⟩ := h
  cases op with
  | resolve r =>
    by_cases hreg : s.registered = true
    · have hres : s.result = none := h1 hreg
      cases hcb : s.callback with
      | some c =>
        simp [pstep, hreg, acceptResult, hcb, countFetched, countInvoked,
          avail, hres]
      | none =>
        simp [pstep, hreg, acceptResult, hcb, countFetched, countInvoked,
          avail, hres]
    · simp [pstep, hreg, countFetched, countInvoked, avail]
  | fetch =>
    cases hres : s.result with
    | some r =>
      simp [pstep, hres, countFetched, countInvoked, avail]
      omega
    | none =>
      simp [pstep, hres, countFetched, countInvoked, avail]
  | get =>
    cases hres : s.result with
    | some r => simp [pstep, hres, countFetched, countInvoked, avail]
    | none => simp [pstep, hres, countFetched, countInvoked, avail]
  | setCb oc =>
    cases oc with
    | some c =>
      cases hres : s.result with
      | some r =>
        simp [pstep, hres, countFetched, countInvoked, avail]
        omega
      | none =>
        simp [pstep, hres, countFetched, countInvoked, avail]
    | none =>
      simp [pstep, countFetched, countInvoked, avail]

theorem prun_delivery_bound (s : PState) (ops : List POp) (h : PInv s) :
    countFetched (prun s ops).2 + countInvoked (prun s ops).2 +
      avail (prun s ops).1 ≤ avail s := by
  induction ops generalizing s with
  | nil => simp [prun, countFetched, countInvoked]
  | cons op ops ih =>
    have hstep := pstep_delivery_bound s op h
    have hrest := ih (pstep s op).1 (pstep_inv s op h)
    simp only [prun, countFetched, countInvoked, List.countP_append] at *
    omega

theorem avail_le_one (s : PState) (h : PInv s) : avail s ≤ 1 := by
  obtain ⟨h1, _⟩ := h
  by_cases hreg : s.registered = true
  · simp [avail, hreg, h1 hreg]
  · cases hres : s.result <;> simp [avail, hreg, hres]

theorem pstep_resolved_bound (s : PState) (op : POp) :
    countResolved (pstep s op).2 + availR (pstep s op).1 ≤ availR s := by
  cases op with
  | resolve r =>
    by_cases hreg : s.registered = true
    · cases hcb : s.callback with
      | some c => simp [pstep, hreg, acceptResult, hcb, countResolved, availR]
      | none => simp [pstep, hreg, acceptResult, hcb, countResolved, availR]
    · simp [pstep, hreg, countResolved, availR]
  | fetch =>
    cases hres : s.result with
    | some r => simp [pstep, hres, countResolved, availR]
    | none => simp [pstep, hres, countResolved, availR]
  | get =>
    cases hres : s.result with
    | some r => simp [pstep, hres, countResolved, availR]
    | none => simp [pstep, hres, countResolved, availR]
  | setCb oc =>
    cases oc with
    | some c =>
      cases hres : s.result with
      | some r => simp [pstep, hres, countResolved, availR]
      | none => simp [pstep, hres, countResolved, availR]
    | none => simp [pstep, countResolved, availR]

theorem prun_resolved_bound (s : PState) (ops : List POp) :
    countResolved (prun s ops).2 + availR (prun s ops).1 ≤ availR s := by
  induction ops generalizing s with
  | nil => simp [prun, countResolved]
  | cons op ops ih =>
    have hstep := pstep_resolved_bound s op
    have hrest := ih (pstep s op).1
    simp only [prun, countResolved, List.countP_append] at *
    omega

/-- A terminal promise: unregistered with an empty result slot. -/
def PDead (s : PState) : Prop := s.registered = false ∧ s.result = none

theorem pstep_dead (s : PState) (op : POp) (h : PDead s) :
    PDead (pstep s op).1 ∧ (pstep s op).2 = [] := by
  obtain ⟨hreg, hres⟩ := h
  cases op with
  | resolve r => simp [pstep, hreg, PDead, hres]
  | fetch => simp [pstep, hres, PDead, hreg]
  | get => simp [pstep, hres, PDead, hreg]
  | setCb oc =>
    cases oc with
    | some c => simp [pstep, hres, PDead, hreg]
    | none => simp [pstep, PDead, hreg, hres]

theorem prun_dead (s : PState) (ops : List POp) (h : PDead s) :
    (prun s ops).2 = [] := by
  induction ops generalizing s with
  | nil => rfl
  | cons op ops ih =>
    have hstep := pstep_dead s op h
    simp only [prun, hstep.2, List.nil_append]
    exact ih (pstep s op).1 hstep.1

/-- C6: over any lifetime of a promise, at most one fetch returns a value
and the shared client resolves the promise at most once; moreover once a
`fetchResult` has returned a stored result, every subsequent operation
sequence produces no event at all — in particular all later `getResult` and
`fetchResult` calls yield nothing and no second resolution happens. -/
theorem promise_fetch_consumes_once :
    (∀ ops : List POp, countFetched (prun initPromise ops).2 ≤ 1) ∧
    (∀ ops : List POp, countResolved (prun initPromise ops).2 ≤ 1) ∧
    (∀ (ops1 : List POp) (r : PResult),
      (pstep (prun initPromise ops1).1 .fetch).2 = [.fetched r] →
      ∀ ops2 : List POp,
        (prun (pstep (prun initPromise ops1).1 .fetch).1 ops2).2 = []) := by
  have hinv0 : PInv initPromise := ⟨fun _ => rfl, fun h => by simp [initPromise] at h⟩
  refine ⟨?_, ?_, ?_⟩
  · intro ops
    have h := prun_delivery_bound initPromise ops hinv0
    have h1 : avail initPromise = 1 := rfl
    omega
  · intro ops
    have h := prun_resolved_bound initPromise ops
    have h1 : availR initPromise = 1 := rfl
    omega
  · intro ops1 r hfetch ops2
    set s1 := (prun initPromise ops1).1 with hs1
    have hinv1 : PInv s1 := prun_inv initPromise ops1 hinv0
    have hres : s1.result = some r := by
      cases hres : s1.result with
      | some v =>
        simp only [pstep, hres] at hfetch
        cases hfetch
        exact congrArg _ rfl
      | none => simp [pstep, hres] at hfetch
    have hreg : s1.registered = false := by
      by_cases h : s1.registered = true
      · rw [hinv1.1 h] at hres
        cases hres
      · simpa using h
    have hdead : PDead (pstep s1 .fetch).1 := by
      simp [pstep, hres, PDead, hreg]
    exact prun_dead _ ops2 hdead

/-- Closed witness for `promise_fetch_consumes_once`: resolve with value 7,
fetch it, then observe that a further get / fetch / resolve emit nothing. -/
theorem promise_fetch_consumes_once_witness :
    (prun (pstep (prun initPromise [.resolve 7]).1 .fetch).1
      [.get, .fetch, .resolve 9]).2 = [] :=
  promise_fetch_consumes_once.2.2 [.resolve 7] 7 (by decide)
    [.get, .fetch, .resolve 9]

/-- C7: (one) the reachability invariant holds, so a stored result excludes
a stored callback; (two) `setCallback` with a non-null function on a promise
already holding a result fires that function immediately with the result,
empties the result slot and does not retain the function (the stored slot —
empty by the invariant — is untouched); (three) a resolution arriving while
a callback is installed moves the callback out, invokes it once with the
result, clears the slot and stores nothing; (four) over any promise lifetime
at most one callback invocation ever happens. -/
theorem promise_callback_delivery :
    (∀ ops : List POp, PInv (prun initPromise ops).1) ∧
    (∀ (s : PState) (c : CbId) (r : PResult), PInv s → s.result = some r →
      s.callback = none ∧
      pstep s (.setCb (some c)) = ({ s with result := none }, [.invoked c r])) ∧
    (∀ (s : PState) (c : CbId) (r : PResult), PInv s → s.registered = true →
      s.callback = some c →
      pstep s (.resolve r) = (⟨false, none, none⟩, [.resolved r, .invoked c r])) ∧
    (∀ ops : List POp, countInvoked (prun initPromise ops).2 ≤ 1) := by
  have hinv0 : PInv initPromise := ⟨fun _ => rfl, fun h => by simp [initPromise] at h⟩
  refine ⟨?_, ?_, ?_, ?_⟩
  · intro ops
    exact prun_inv initPromise ops hinv0
  · intro s c r hinv hres
    refine ⟨hinv.2 (by simp [hres]), ?_⟩
    simp [pstep, hres]
  · intro s c r hinv hreg hcb
    have hres : s.result = none := hinv.1 hreg
    simp only [pstep, if_pos hreg, acceptResult, hcb]
    rw [hres]
  · intro ops
    have h := prun_delivery_bound initPromise ops hinv0
    have h1 : avail initPromise = 1 := rfl
    omega

/-- Closed witness for `promise_callback_delivery`: a promise holding result
5 fires a newly set callback 3 immediately and empties the slot; a promise
with installed callback 4 being resolved with 6 invokes it once. -/
theorem promise_callback_delivery_witness :
    pstep ⟨false, none, some 5⟩ (.setCb (some 3)) =
      (⟨false, none, none⟩, [.invoked 3 5]) ∧
    pstep ⟨true, some 4, none⟩ (.resolve 6) =
      (⟨false, none, none⟩, [.resolved 6, .invoked 4 6]) := by
  constructor
  · exact (promise_callback_delivery.2.1 ⟨false, none, some 5⟩ 3 5
      ⟨fun h => by simp at h, fun _ => rfl⟩ rfl).2
  · exact promise_callback_delivery.2.2.1 ⟨true, some 4, none⟩ 4 6
      ⟨fun _ => rfl, fun h => by simp at h⟩ rfl rfl

end Promise

namespace Mset

/-- One storage slot of `MultisetBase<T>::Item`: either holds a constructed
element or is free (`ptr == NULL`). -/
abbrev Slot (T : Type) := Option T

/-- `MultisetBase::RemoveStrategy` -/
inductive RemoveStrategy where
  | removeOne
  | removeAll
deriving DecidableEq, Repr

/-- The storage of a multiset: the caller-provided static slab followed by
the chain of pool-allocated chunks, each chunk a fixed array of slots, in
iteration order. -/
structure MState (T : Type) where
  statics : List (Slot T)
  chunks : List (List (Slot T))
deriving DecidableEq, Repr

/-- The static-slab loop of `MultisetBase::removeMatching`: each constructed
slot matching the predicate is destroyed and counted; after each iteration
the loop breaks when something was removed and the strategy is RemoveOne. -/
def staticsLoop {T : Type} (pred : T → Bool) (strategy : RemoveStrategy) :
    List (Slot T) → Nat → List (Slot T) × Nat
  | [], n => ([], n)
  | it :: rest, n =>
    let step : Slot T × Nat :=
      match it with
      | some x => if pred x then (none, n + 1) else (it, n)
      | none => (it, n)
    if 0 < step.2 ∧ strategy = .removeOne then (step.1 :: rest, step.2)
    else
      let out := staticsLoop pred strategy rest step.2
      (step.1 :: out.1, out.2)

/-- The inner per-chunk loop of `removeMatching`: every constructed slot
matching the predicate is destroyed and counted — this loop has no
RemoveOne break. -/
def chunkClean {T : Type} (pred : T → Bool) :
    List (Slot T) → Nat → List (Slot T) × Nat
  | [], n => ([], n)
  | it :: rest, n =>
    let step : Slot T × Nat :=
      match it with
      | some x => if pred x then (none, n + 1) else (it, n)
      | none => (it, n)
    let out := chunkClean pred rest step.2
    (step.1 :: out.1, out.2)

/-- The chunk-chain loop of `removeMatching`: before each chunk, break when
something was removed and the strategy is RemoveOne; otherwise sweep the
whole chunk. -/
def chunksLoop {T : Type} (pred : T → Bool) (strategy : RemoveStrategy) :
    List (List (Slot T)) → Nat → List (List (Slot T)) × Nat
  | [], n => ([], n)
  | c :: rest, n =>
    if 0 < n ∧ strategy = .removeOne then (c :: rest, n)
    else
      let cc := chunkClean pred c n
      let out := chunksLoop pred strategy rest cc.2
      (cc.1 :: out.1, out.2)

/-- `MultisetBase::compact`: release every chunk that holds no constructed
item. -/
def compact {T : Type} (chunks : List (List (Slot T))) : List (List (Slot T)) :=
  chunks.filter fun c => c.any fun it => it.isSome

/-- `MultisetBase::removeMatching(predicate, strategy)`: static slab first,
then the chunk chain; `compact` runs only when something was removed. -/
def removeMatching {T : Type} (pred : T → Bool) (strategy : RemoveStrategy)
    (s : MState T) : MState T :=
  let st := staticsLoop pred strategy s.statics 0
  let ch := chunksLoop pred strategy s.chunks st.2
  if 0 < ch.2 then ⟨st.1, compact ch.1⟩ else ⟨st.1, ch.1⟩

/-- `MultisetBase::removeFirstMatching(pred)` -/
def removeFirstMatching {T : Type} (pred : T → Bool) (s : MState T) : MState T :=
  removeMatching pred .removeOne s

/-- `MultisetBase::removeAllMatching(pred)` -/
def removeAllMatching {T : Type} (pred : T → Bool) (s : MState T) : MState T :=
  removeMatching pred .removeAll s

/-- `MultisetBase::getSize()`: number of constructed items, static slab plus
chunks. -/
def msize {T : Type} (s : MState T) : Nat :=
  (s.statics.countP fun it => it.isSome) +
    ((s.chunks.map fun c => c.countP fun it => it.isSome).sum)

/-- A multiset as used for sweeping promises: no static slab, one dynamic
chunk holding two elements that both match the sweep predicate. -/
def c9Example : MState Nat := ⟨[], [[some 1, some 2]]⟩

/-- C9 counterexample: on a multiset with two matching elements in the same
dynamic chunk, `removeFirstMatching` removes more than one element — the
RemoveOne break exists only between chunks (and in the static slab), not
inside a chunk. -/
theorem removeFirstMatching_removes_two :
    ¬ (msize c9Example - msize (removeFirstMatching (fun _ => true) c9Example) ≤ 1) := by
  decide

def slotMatches {T : Type} (pred : T → Bool) : Slot T → Bool
  | some x => pred x
  | none => false

/-- Destroy the first matching static slot, leave everything else. -/
def eraseFirstMatch {T : Type} (pred : T → Bool) : List (Slot T) → List (Slot T)
  | [] => []
  | it :: rest =>
    if slotMatches pred it then none :: rest
    else it :: eraseFirstMatch pred rest

def chunkHasMatch {T : Type} (pred : T → Bool) (c : List (Slot T)) : Bool :=
  c.any (slotMatches pred)

/-- Destroy every matching slot of a chunk. -/
def cleanChunkAll {T : Type} (pred : T → Bool) (c : List (Slot T)) : List (Slot T) :=
  c.map fun it => if slotMatches pred it then none else it

/-- Sweep only the first chunk that has a match. -/
def cleanFirstMatchingChunk {T : Type} (pred : T → Bool) :
    List (List (Slot T)) → List (List (Slot T))
  | [] => []
  | c :: rest =>
    if chunkHasMatch pred c then cleanChunkAll pred c :: rest
    else c :: cleanFirstMatchingChunk pred rest

theorem staticsLoop_removeOne {T : Type} (pred : T → Bool) (st : List (Slot T)) :
    staticsLoop pred .removeOne st 0 =
      if st.any (slotMatches pred) then (eraseFirstMatch pred st, 1)
      else (st, 0) := by
  induction st with
  | nil => rfl
  | cons it rest ih =>
    cases it with
    | none =>
      simp only [staticsLoop, lt_self_iff_false, false_and, if_false, ih,
        List.any_cons, slotMatches, Bool.false_or, eraseFirstMatch]
      by_cases h : rest.any (slotMatches pred) = true <;>
        simp [h, eraseFirstMatch, slotMatches]
    | some x =>
      by_cases hp : pred x = true
      · simp [staticsLoop, hp, List.any_cons, slotMatches, eraseFirstMatch]
      · simp only [staticsLoop, hp, lt_self_iff_false, false_and, if_false,
          Bool.false_eq_true, ih, List.any_cons, slotMatches, Bool.false_or]
        by_cases h : rest.any (slotMatches pred) = true <;>
          simp [h, eraseFirstMatch, slotMatches, hp]

theorem chunkClean_spec {T : Type} (pred : T → Bool) (c : List (Slot T)) (n : Nat) :
    chunkClean pred c n = (cleanChunkAll pred c, n + c.countP (slotMatches pred)) := by
  induction c generalizing n with
  | nil => simp [chunkClean, cleanChunkAll]
  | cons it rest ih =>
    cases it with
    | none =>
      simp [chunkClean, ih, cleanChunkAll, slotMatches, List.countP_cons]
    | some x =>
      by_cases hp : pred x = true
      · simp [chunkClean, hp, ih, cleanChunkAll, slotMatches, List.countP_cons]
        omega
      · simp [chunkClean, hp, ih, cleanChunkAll, slotMatches, List.countP_cons]

theorem chunk_no_match_countP {T : Type} (pred : T → Bool) :
    ∀ c : List (Slot T), chunkHasMatch pred c = false →
      c.countP (slotMatches pred) = 0 := by
  intro c
  induction c with
  | nil => intro _; rfl
  | cons it rest ih =>
    intro hc
    simp only [chunkHasMatch, List.any_cons, Bool.or_eq_false_iff] at hc
    rw [List.countP_cons]
    have h1 := ih (by simpa [chunkHasMatch] using hc.2)
    simp [h1, hc.1]

theorem chunk_no_match_clean {T : Type} (pred : T → Bool) :
    ∀ c : List (Slot T), chunkHasMatch pred c = false →
      cleanChunkAll pred c = c := by
  intro c
  induction c with
  | nil => intro _; rfl
  | cons it rest ih =>
    intro hc
    simp only [chunkHasMatch, List.any_cons, Bool.or_eq_false_iff] at hc
    have hrest := ih (by simpa [chunkHasMatch] using hc.2)
    simp only [cleanChunkAll, List.map_cons] at hrest ⊢
    rw [hrest, hc.1]
    simp

theorem chunksLoop_removeOne_zero {T : Type} (pred : T → Bool)
    (chunks : List (List (Slot T))) :
    chunksLoop pred .removeOne chunks 0 =
      if chunks.any (chunkHasMatch pred) then
        (cleanFirstMatchingChunk pred chunks,
          ((chunks.find? (chunkHasMatch pred)).getD []).countP (slotMatches pred))
      else (chunks, 0) := by
  induction chunks with
  | nil => rfl
  | cons c rest ih =>
    by_cases hc : chunkHasMatch pred c = true
    · have hc2 : c.any (slotMatches pred) = true := hc
      have hcount : 0 < c.countP (slotMatches pred) := by
        rcases List.any_eq_true.mp hc2 with ⟨a, ha, hpa⟩
        exact List.countP_pos_iff.mpr ⟨a, ha, hpa⟩
      simp only [chunksLoop, lt_self_iff_false, false_and, if_false,
        chunkClean_spec, Nat.zero_add, List.any_cons, hc, Bool.true_or,
        if_true, cleanFirstMatchingChunk, List.find?_cons_of_pos _ hc,
        Option.getD_some]
      cases rest with
      | nil => simp [chunksLoop]
      | cons c2 rest2 => simp [chunksLoop, hcount]
    · have hcf : chunkHasMatch pred c = false := by simpa using hc
      have hzero := chunk_no_match_countP pred c hcf
      have hclean := chunk_no_match_clean pred c hcf
      simp only [chunksLoop, lt_self_iff_false, false_and, if_false,
        chunkClean_spec, Nat.zero_add, hzero, ih, List.any_cons, hcf,
        Bool.false_or, cleanFirstMatchingChunk, hclean,
        List.find?_cons_of_neg _ hc]
      by_cases h : rest.any (chunkHasMatch pred) = true <;> simp [h]

theorem compact_msize {T : Type} (chunks : List (List (Slot T))) :
    ((compact chunks).map fun c => c.countP fun it => it.isSome).sum =
      (chunks.map fun c => c.countP fun it => it.isSome).sum := by
  induction chunks with
  | nil => rfl
  | cons c rest ih =>
    simp only [compact] at ih ⊢
    rw [List.filter_cons]
    by_cases hc : (c.any fun it => it.isSome) = true
    · simp [hc, ih]
    · have hzero : (c.countP fun it => it.isSome) = 0 := by
        rw [List.countP_eq_zero]
        intro a ha hpa
        exact hc (List.any_eq_true.mpr ⟨a, ha, hpa⟩)
      simp [hc, ih, hzero]

theorem eraseFirstMatch_countP {T : Type} (pred : T → Bool) :
    ∀ st : List (Slot T), st.any (slotMatches pred) = true →
      (eraseFirstMatch pred st).countP (fun it => it.isSome) + 1 =
        st.countP fun it => it.isSome := by
  intro st
  induction st with
  | nil => intro h; simp at h
  | cons it rest ih =>
    intro h
    cases it with
    | none =>
      simp only [List.any_cons, slotMatches, Bool.false_or] at h
      simpa [eraseFirstMatch, slotMatches, List.countP_cons] using ih h
    | some x =>
      by_cases hp : pred x = true
      · simp [eraseFirstMatch, slotMatches, hp, List.countP_cons]
      · have h2 : rest.any (slotMatches pred) = true := by
          simpa [slotMatches, hp] using h
        simpa [eraseFirstMatch, slotMatches, hp, List.countP_cons] using ih h2

/-- C9 amended: `removeFirstMatching(pred)` removes nothing when no stored
element matches; when the first matching element lies in the static slab it
destroys exactly that slot, leaving all other slots as they are; otherwise
it destroys every matching slot of the first dynamic chunk containing a
match (possibly several), leaving the static slab and all other chunks'
elements untouched; chunks left without any constructed item are released.
In the static case exactly one element is removed. -/
theorem removeFirstMatching_characterization {T : Type} (pred : T → Bool)
    (s : MState T) :
    (removeFirstMatching pred s =
      if s.statics.any (slotMatches pred) then
        ⟨eraseFirstMatch pred s.statics, compact s.chunks⟩
      else if s.chunks.any (chunkHasMatch pred) then
        ⟨s.statics, compact (cleanFirstMatchingChunk pred s.chunks)⟩
      else s) ∧
    (s.statics.any (slotMatches pred) = true →
      msize (removeFirstMatching pred s) + 1 = msize s) := by
  have hmain : removeFirstMatching pred s =
      if s.statics.any (slotMatches pred) then
        ⟨eraseFirstMatch pred s.statics, compact s.chunks⟩
      else if s.chunks.any (chunkHasMatch pred) then
        ⟨s.statics, compact (cleanFirstMatchingChunk pred s.chunks)⟩
      else s := by
    unfold removeFirstMatching removeMatching
    rw [staticsLoop_removeOne]
    by_cases hst : s.statics.any (slotMatches pred) = true
    · simp only [hst, if_true]
      have hch : chunksLoop pred .removeOne s.chunks 1 = (s.chunks, 1) := by
        cases hcs : s.chunks with
        | nil => rfl
        | cons c rest => simp [chunksLoop]
      simp [hch]
    · simp only [hst, Bool.false_eq_true, if_false]
      rw [chunksLoop_removeOne_zero]
      by_cases hch : s.chunks.any (chunkHasMatch pred) = true
      · simp only [hch, if_true]
        have hfind : ∃ c, s.chunks.find? (chunkHasMatch pred) = some c ∧
            chunkHasMatch pred c = true := by
          rcases List.any_eq_true.mp hch with ⟨c, hc, hpc⟩
          rcases List.find?_isSome.mpr ⟨c, hc, hpc⟩ with h
          cases hfind : s.chunks.find? (chunkHasMatch pred) with
          | none => rw [hfind] at h; cases h
          | some c0 => exact ⟨c0, rfl, List.find?_some hfind⟩
        rcases hfind with ⟨c0, hfind, hc0⟩
        have hcount : 0 < c0.countP (slotMatches pred) := by
          rcases List.any_eq_true.mp hc0 with ⟨a, ha, hpa⟩
          exact List.countP_pos_iff.mpr ⟨a, ha, hpa⟩
        rw [hfind]
        simp only [Option.getD_some]
        simp [hcount]
      · simp only [hch, Bool.false_eq_true, if_false]
        simp
  refine ⟨hmain, ?_⟩
  intro hst
  rw [hmain]
  simp only [hst, if_true]
  have hsize := eraseFirstMatch_countP pred s.statics hst
  simp only [msize, compact_msize]
  omega

/-- Closed witness for `removeFirstMatching_characterization`: a static slab
with two matching elements loses exactly its first one. -/
theorem removeFirstMatching_characterization_witness :
    removeFirstMatching (fun _ => true) (⟨[some 3, some 4], []⟩ : MState Nat) =
      ⟨[none, some 4], []⟩ ∧
    msize (removeFirstMatching (fun _ => true)
      (⟨[some 3, some 4], []⟩ : MState Nat)) + 1 =
      msize (⟨[some 3, some 4], []⟩ : MState Nat) := by
  have h := removeFirstMatching_characterization (fun _ => true)
    (⟨[some 3, some 4], []⟩ : MState Nat)
  exact ⟨h.1.trans (by decide), h.2 (by decide)⟩

end Mset
